import Mathlib

/-!
Verification of the voxel-island block (`src/block.tsx`): the terrain
generator `VoxelIsland` and the per-frame player controller
`PlayerController`.

Modelling conventions.
JavaScript numbers (IEEE doubles) are modelled as real numbers; all grid
coordinates, elevations and emitted positions are in fact integers
(`centerX = size / 2 = 25` exactly), so positions are embedded as `ℤ`.
`Math.random()` is modelled as an injected assignment of one rational draw
to each call site (`Rng`): every double in `[0, 1)` is rational and draws
are only compared against the literals `0.02` and `0.7`, and every theorem
below quantifies over all such assignments.  Colors are the hex strings the
code uses.
-/

/-- `noise` of `block.tsx`:
`Math.sin(x*0.1)*Math.cos(z*0.1)*2 + Math.sin(x*0.05)*Math.cos(z*0.05)*4 +
 Math.sin(x*0.02)*Math.cos(z*0.02)*8`. -/
noncomputable def noise (x z : ℝ) : ℝ :=
  Real.sin (x * 0.1) * Real.cos (z * 0.1) * 2 +
  Real.sin (x * 0.05) * Real.cos (z * 0.05) * 4 +
  Real.sin (x * 0.02) * Real.cos (z * 0.02) * 8

/-- `const size = 50` of `VoxelIsland`. -/
def size : ℕ := 50

/-- `const centerX = size / 2`. -/
noncomputable def centerX : ℝ := (size : ℝ) / 2

/-- `const centerZ = size / 2`. -/
noncomputable def centerZ : ℝ := (size : ℝ) / 2

/-- `Math.sqrt((x - centerX) ** 2 + (z - centerZ) ** 2)`. -/
noncomputable def distFromCenter (x z : ℕ) : ℝ :=
  Real.sqrt (((x : ℝ) - centerX) ^ 2 + ((z : ℝ) - centerZ) ^ 2)

/-- `const maxDist = size * 0.4`. -/
noncomputable def maxDist : ℝ := (size : ℝ) * 0.4

/-- `const height = Math.max(0, noise(x, z) * (1 - distFromCenter / maxDist))`. -/
noncomputable def height (x z : ℕ) : ℝ :=
  max 0 (noise x z * (1 - distFromCenter x z / maxDist))

/-- `const voxelHeight = Math.floor(height) + 1`. -/
noncomputable def voxelHeight (x z : ℕ) : ℤ :=
  ⌊height x z⌋ + 1

/-- One emitted voxel: `{ position: [px, py, pz], color }`.  The generator
only ever pushes integer positions (`x - centerX` with `x : ℕ` and
`centerX = 25`), so the position components are `ℤ`. -/
structure Voxel where
  px : ℤ
  py : ℤ
  pz : ℤ
  color : String
deriving DecidableEq

/-- `'#8B4513'`, brown for dirt. -/
def dirtColor : String := "#8B4513"

/-- `'#228B22'`, green for grass on top. -/
def grassColor : String := "#228B22"

/-- `'#F4A460'`, sandy for beach. -/
def sandColor : String := "#F4A460"

/-- `'#696969'`, gray for bedrock. -/
def bedrockColor : String := "#696969"

/-- `'#8B4513'`, the tree-trunk color (the same string as `dirtColor`). -/
def trunkColor : String := "#8B4513"

/-- `'#228B22'`, the tree-leaf color (the same string as `grassColor`). -/
def leafColor : String := "#228B22"

/-- The fill-voxel color chain of `VoxelIsland`: a `let color` initialised
to dirt brown, then reassigned by the `if`/`else if` chain on `y`. -/
def fillColor (y vh : ℤ) : String :=
  if y = vh ∧ 3 < y then grassColor
  else if y = vh ∧ y ≤ 3 then sandColor
  else if y = 0 then bedrockColor
  else dirtColor

/-- The `Math.random()` call sites of `VoxelIsland`, as an injected draw
assignment: `treeRoll x z` is the draw of the tree test of column
`(x, z)` (that test runs at most once per column, at `y = voxelHeight`),
and `leafRoll x z dx dz dy` the draw of leaf cell `(dx, dz, dy)` of the
tree at `(x, z)`. -/
structure Rng where
  treeRoll : ℕ → ℕ → ℚ
  leafRoll : ℕ → ℕ → ℤ → ℤ → ℤ → ℚ

/-- The tree voxels pushed for a tree whose top-surface elevation is `y`:
two trunk voxels, then the `dx`/`dz`/`dy` leaf loops with the conditional
push `Math.random() < 0.7`. -/
def treeVoxels (rng : Rng) (x z : ℕ) (y : ℤ) : List Voxel :=
  [⟨(x : ℤ) - 25, y + 1, (z : ℤ) - 25, trunkColor⟩,
   ⟨(x : ℤ) - 25, y + 2, (z : ℤ) - 25, trunkColor⟩] ++
  (([-1, 0, 1] : List ℤ).flatMap fun dx =>
    (([-1, 0, 1] : List ℤ).flatMap fun dz =>
      (([0, 1] : List ℤ).flatMap fun dy =>
        if rng.leafRoll x z dx dz dy < 0.7 then
          [⟨(x : ℤ) - 25 + dx, y + 3 + dy, (z : ℤ) - 25 + dz, leafColor⟩]
        else [])))

/-- The guard `y === voxelHeight && y > 5 && Math.random() < 0.02`. -/
def treeCond (rng : Rng) (x z : ℕ) (vh y : ℤ) : Prop :=
  y = vh ∧ 5 < y ∧ rng.treeRoll x z < 0.02

instance (rng : Rng) (x z : ℕ) (vh y : ℤ) : Decidable (treeCond rng x z vh y) := by
  unfold treeCond
  infer_instance

/-- The voxels the tree test pushes at elevation `y` of a column:
`treeVoxels` when the guard holds, nothing otherwise. -/
def treePart (rng : Rng) (x z : ℕ) (vh y : ℤ) : List Voxel :=
  if treeCond rng x z vh y then treeVoxels rng x z y else []

/-- Everything one iteration of the `y` loop pushes: the tree test's
voxels (the tree block precedes the fill push in the source), then the
fill voxel `{ position: [x - centerX, y, z - centerZ], color }`. -/
def yVoxels (rng : Rng) (x z : ℕ) (vh y : ℤ) : List Voxel :=
  treePart rng x z vh y ++ [⟨(x : ℤ) - 25, y, (z : ℤ) - 25, fillColor y vh⟩]

/-- The loop `for (let y = 0; y <= voxelHeight; y++)`: elevations
`0, 1, ..., vh` (none when `vh < 0`, exactly as the JS loop). -/
def columnVoxels (rng : Rng) (x z : ℕ) (vh : ℤ) : List Voxel :=
  ((List.range (vh + 1).toNat).map fun (y : ℕ) => yVoxels rng x z vh (y : ℤ)).flatten

/-- The whole generator: both grid loops, with the island-shape test
`if (distFromCenter < maxDist)` guarding each column. -/
noncomputable def voxelData (rng : Rng) : List Voxel :=
  ((List.range size).map fun x =>
    ((List.range size).map fun z =>
      if distFromCenter x z < maxDist then
        columnVoxels rng x z (voxelHeight x z)
      else []).flatten).flatten

/-! ## The player controller (`PlayerController`) -/

/-- A `THREE.Vector3` as a triple of reals. -/
structure Vec3 where
  x : ℝ
  y : ℝ
  z : ℝ

/-- `Vector3.add`. -/
noncomputable def Vec3.add (a b : Vec3) : Vec3 :=
  ⟨a.x + b.x, a.y + b.y, a.z + b.z⟩

/-- `Vector3.sub`. -/
noncomputable def Vec3.sub (a b : Vec3) : Vec3 :=
  ⟨a.x - b.x, a.y - b.y, a.z - b.z⟩

/-- `Vector3.multiplyScalar` (the returned value; the JS call also
overwrites the receiver, which the frame update below threads
explicitly). -/
noncomputable def Vec3.smul (a : Vec3) (s : ℝ) : Vec3 :=
  ⟨a.x * s, a.y * s, a.z * s⟩

/-- `Vector3.crossVectors a b`. -/
noncomputable def Vec3.cross (a b : Vec3) : Vec3 :=
  ⟨a.y * b.z - a.z * b.y, a.z * b.x - a.x * b.z, a.x * b.y - a.y * b.x⟩

/-- `Vector3.length`. -/
noncomputable def Vec3.len (a : Vec3) : ℝ :=
  Real.sqrt (a.x ^ 2 + a.y ^ 2 + a.z ^ 2)

/-- `Vector3.normalize`: `divideScalar(length || 1)` — a zero-length
vector is left unchanged. -/
noncomputable def Vec3.normalize (a : Vec3) : Vec3 :=
  a.smul (1 / (if a.len = 0 then 1 else a.len))

/-- Dot product (used only to state the displacement projection). -/
noncomputable def Vec3.dot (a b : Vec3) : ℝ :=
  a.x * b.x + a.y * b.y + a.z * b.z

/-- The five tracked flags of `keysPressed` (`keyw`/`keya`/`keys`/`keyd`/
`space`). -/
structure Keys where
  keyw : Bool
  keya : Bool
  keys : Bool
  keyd : Bool
  space : Bool
deriving DecidableEq

/-- The scratch velocity one `useFrame` callback accumulates.  The source
reuses one `forward` vector and one `right` vector across the key tests
and `multiplyScalar` mutates its receiver, so each test rescales the
vector the previous test left behind; the model threads those mutated
vectors (`fw1`, `fw2`, `r1`, `r2`) explicitly. -/
noncomputable def frameVelocity (k : Keys) (forward0 up : Vec3) (delta : ℝ) : Vec3 :=
  let speed : ℝ := 10
  let right0 := (Vec3.cross forward0 up).normalize
  let v0 : Vec3 := ⟨0, 0, 0⟩
  let fw1 := if k.keyw then forward0.smul (speed * delta) else forward0
  let v1 := if k.keyw then v0.add fw1 else v0
  let fw2 := if k.keys then fw1.smul (-speed * delta) else fw1
  let v2 := if k.keys then v1.add fw2 else v1
  let r1 := if k.keya then right0.smul (-speed * delta) else right0
  let v3 := if k.keya then v2.add r1 else v2
  let r2 := if k.keyd then r1.smul (speed * delta) else r1
  let v4 := if k.keyd then v3.add r2 else v3
  if k.space then ⟨v4.x, v4.y + speed * delta, v4.z⟩ else v4

/-- One `useFrame` callback applied to the camera position:
`camera.position.add(velocity)`, then the ground clamp
`if (camera.position.y < 2) camera.position.y = 2`. -/
noncomputable def frameUpdate (k : Keys) (forward0 up : Vec3) (delta : ℝ) (pos : Vec3) : Vec3 :=
  let p := pos.add (frameVelocity k forward0 up delta)
  if p.y < 2 then ⟨p.x, 2, p.z⟩ else p

/-- `n` consecutive frames with the same key state, look direction and
frame delta. -/
noncomputable def posAfter (k : Keys) (forward0 up : Vec3) (delta : ℝ) (p : Vec3) : ℕ → Vec3
  | 0 => p
  | n + 1 => frameUpdate k forward0 up delta (posAfter k forward0 up delta p n)

/-- Only the forward key held. -/
def onlyForward : Keys := ⟨true, false, false, false, false⟩

/-- No movement key held. -/
def noKeys : Keys := ⟨false, false, false, false, false⟩

/-! ## Definitions written from the claims' words (for refinement
comparisons against the code's definitions above) -/

/-- Claim C1's column height: floor of
`max(0, H(x, z) * (1 - distFromCenter / maxDist))`, with no further
adjustment. -/
noncomputable def claimVoxelHeight (x z : ℕ) : ℤ :=
  ⌊max 0 (noise x z * (1 - distFromCenter x z / maxDist))⌋

/-- Claim C3's color rule, in the claim's precedence: `y == 0` bedrock;
else top and `y > 3` grass; else top and `y <= 3` sand; else dirt. -/
def claimFillColor (y vh : ℤ) : String :=
  if y = 0 then bedrockColor
  else if y = vh ∧ 3 < y then grassColor
  else if y = vh ∧ y ≤ 3 then sandColor
  else dirtColor

/-- Claim C2's per-frame velocity: the sum, over the pressed keys, of
`+speed*dt*f`, `-speed*dt*f`, `-speed*dt*r`, `+speed*dt*r`, plus
`speed*dt` on the vertical component for ascend, where `r` is the
normalized cross product of `f` with the up vector. -/
noncomputable def claimVelocity (k : Keys) (f up : Vec3) (delta : ℝ) : Vec3 :=
  let speed : ℝ := 10
  let r := (Vec3.cross f up).normalize
  (((((if k.keyw then f.smul (speed * delta) else ⟨0, 0, 0⟩).add
      (if k.keys then f.smul (-speed * delta) else ⟨0, 0, 0⟩)).add
      (if k.keya then r.smul (-speed * delta) else ⟨0, 0, 0⟩)).add
      (if k.keyd then r.smul (speed * delta) else ⟨0, 0, 0⟩)).add
      (if k.space then ⟨0, speed * delta, 0⟩ else ⟨0, 0, 0⟩))

/-- The 18 candidate leaf cells of claim C5: the 3×3 ring around the
column axis, two levels deep, in the code's loop order. -/
def canopyCells : List (ℤ × ℤ × ℤ) :=
  ([-1, 0, 1] : List ℤ).flatMap fun dx =>
    ([-1, 0, 1] : List ℤ).flatMap fun dz =>
      ([0, 1] : List ℤ).map fun dy => (dx, dz, dy)

/-- Claim C5's tree shape: two trunk voxels at `top+1` and `top+2`,
followed by the canopy cells whose draw is below `0.7`, at
`(x+dx, top+3+dy, z+dz)`. -/
def claimTreeVoxels (rng : Rng) (x z : ℕ) (top : ℤ) : List Voxel :=
  [⟨(x : ℤ) - 25, top + 1, (z : ℤ) - 25, trunkColor⟩,
   ⟨(x : ℤ) - 25, top + 2, (z : ℤ) - 25, trunkColor⟩] ++
  (canopyCells.filter fun c => rng.leafRoll x z c.1 c.2.1 c.2.2 < 0.7).map
    fun c => ⟨(x : ℤ) - 25 + c.1, top + 3 + c.2.2, (z : ℤ) - 25 + c.2.1, leafColor⟩

/-! ## Basic terrain facts -/

lemma maxDist_eq : maxDist = 20 := by
  unfold maxDist size
  norm_num

lemma height_nonneg (x z : ℕ) : 0 ≤ height x z :=
  le_max_left _ _

/-- Every column of the generator is at least one voxel tall:
`voxelHeight = Math.floor(Math.max(0, …)) + 1 ≥ 1`. -/
lemma one_le_voxelHeight (x z : ℕ) : 1 ≤ voxelHeight x z := by
  unfold voxelHeight
  have h : (0 : ℤ) ≤ ⌊height x z⌋ :=
    Int.le_floor.mpr (by exact_mod_cast height_nonneg x z)
  omega

/-- The squared distance from the grid center, as an integer. -/
def sqDist (x z : ℕ) : ℤ :=
  ((x : ℤ) - 25) ^ 2 + ((z : ℤ) - 25) ^ 2

lemma distFromCenter_eq_sqrt (x z : ℕ) :
    distFromCenter x z = Real.sqrt ((sqDist x z : ℝ)) := by
  unfold distFromCenter sqDist centerX centerZ size
  congr 1
  push_cast
  norm_num

lemma dist_lt_iff (x z : ℕ) :
    distFromCenter x z < maxDist ↔ sqDist x z < 400 := by
  rw [distFromCenter_eq_sqrt, maxDist_eq,
    Real.sqrt_lt' (by norm_num : (0 : ℝ) < 20)]
  constructor
  · intro h
    have : (sqDist x z : ℝ) < 400 := by norm_num at h ⊢; linarith
    exact_mod_cast this
  · intro h
    have : (sqDist x z : ℝ) < 400 := by exact_mod_cast h
    norm_num
    linarith

lemma noise_le_14 (x z : ℝ) : noise x z ≤ 14 := by
  have t : ∀ a b : ℝ, Real.sin a * Real.cos b ≤ 1 := by
    intro a b
    calc Real.sin a * Real.cos b ≤ |Real.sin a * Real.cos b| := le_abs_self _
    _ = |Real.sin a| * |Real.cos b| := abs_mul _ _
    _ ≤ 1 * 1 :=
        mul_le_mul (Real.abs_sin_le_one a) (Real.abs_cos_le_one b)
          (abs_nonneg _) zero_le_one
    _ = 1 := one_mul 1
  unfold noise
  have h1 := t (x * 0.1) (z * 0.1)
  have h2 := t (x * 0.05) (z * 0.05)
  have h3 := t (x * 0.02) (z * 0.02)
  nlinarith

/-- A column tall enough to host a tree (`voxelHeight > 5`) lies well
inside the island: its squared distance from the center is at most 168
(the falloff would otherwise keep the height below 5, since the raw
noise is at most `2 + 4 + 8 = 14`). -/
lemma sqDist_le_of_tall (x z : ℕ) (h5 : 5 < voxelHeight x z)
    (hin : distFromCenter x z < maxDist) : sqDist x z ≤ 168 := by
  have hh : (5 : ℝ) ≤ height x z := by
    unfold voxelHeight at h5
    have h5' : (5 : ℤ) ≤ ⌊height x z⌋ := by omega
    calc (5 : ℝ) = ((5 : ℤ) : ℝ) := by norm_num
    _ ≤ (⌊height x z⌋ : ℝ) := by exact_mod_cast h5'
    _ ≤ height x z := Int.floor_le _
  have hP : 5 ≤ noise x z * (1 - distFromCenter x z / maxDist) := by
    rcases le_max_iff.mp hh with h0 | h
    · linarith
    · exact h
  have hd0 : 0 ≤ distFromCenter x z := by
    unfold distFromCenter
    exact Real.sqrt_nonneg _
  rw [maxDist_eq] at hP hin
  have hfpos : 0 < 1 - distFromCenter x z / 20 := by linarith
  have hn14 := noise_le_14 x z
  have h514 : 5 ≤ 14 * (1 - distFromCenter x z / 20) :=
    le_trans hP (mul_le_mul_of_nonneg_right hn14 hfpos.le)
  have hdle : distFromCenter x z ≤ 90 / 7 := by linarith
  have hSnn : (0 : ℝ) ≤ (sqDist x z : ℝ) := by
    have : (0 : ℤ) ≤ sqDist x z := by unfold sqDist; positivity
    exact_mod_cast this
  have hS : (sqDist x z : ℝ) = distFromCenter x z ^ 2 := by
    rw [distFromCenter_eq_sqrt, Real.sq_sqrt hSnn]
  have hSle : (sqDist x z : ℝ) < 169 := by
    rw [hS]
    nlinarith
  have : sqDist x z < 169 := by exact_mod_cast hSle
  omega

/-! ## C1: the column height formula -/

/-- C1 (corrected): for every grid cell, the integer column height the
code computes is the floor of the clamped falloff-scaled height sample
PLUS ONE (`Math.floor(height) + 1`), not the bare floor the claim
states. -/
theorem C1_voxelHeight_is_floor_plus_one (x z : ℕ) :
    voxelHeight x z = claimVoxelHeight x z + 1 := rfl

/-- C1's counterexample: the center cell `(25, 25)` is included
(`distFromCenter = 0 < maxDist`), yet its `voxelHeight` differs from the
claimed bare floor. -/
theorem C1_counterexample :
    distFromCenter 25 25 < maxDist ∧
    voxelHeight 25 25 ≠ claimVoxelHeight 25 25 := by
  constructor
  · rw [dist_lt_iff]
    unfold sqDist
    norm_num
  · show ⌊height 25 25⌋ + 1 ≠ claimVoxelHeight 25 25
    have h : claimVoxelHeight 25 25 = ⌊height 25 25⌋ := rfl
    rw [h]
    omega

/-! ## C3: the fill-voxel color rule -/

/-- C3 (confirmed): since every column satisfies `voxelHeight ≥ 1`, the
code's color chain (grass, sand, bedrock checks in that order) agrees
with the claim's precedence (bedrock first) on every emitted fill
elevation, and the topmost fill voxel is sand exactly when
`voxelHeight ≤ 3` and grass exactly when `voxelHeight > 3`. -/
theorem C3_fill_color_rule (x z : ℕ) (y : ℤ) :
    (0 ≤ y → y ≤ voxelHeight x z →
      fillColor y (voxelHeight x z) = claimFillColor y (voxelHeight x z)) ∧
    (fillColor (voxelHeight x z) (voxelHeight x z) = sandColor ↔
      voxelHeight x z ≤ 3) ∧
    (fillColor (voxelHeight x z) (voxelHeight x z) = grassColor ↔
      3 < voxelHeight x z) := by
  have h1 : 1 ≤ voxelHeight x z := one_le_voxelHeight x z
  refine ⟨?_, ?_, ?_⟩
  · intro hy0 hyv
    unfold fillColor claimFillColor
    split_ifs <;> first | rfl | omega
  · unfold fillColor
    split_ifs with hg hs
    · exact iff_of_false (by decide) (by omega)
    · exact iff_of_true rfl (by omega)
    all_goals
      exfalso
      rcases lt_or_le 3 (voxelHeight x z) with h | h
      · exact hg ⟨rfl, h⟩
      · exact hs ⟨rfl, h⟩
  · unfold fillColor
    split_ifs with hg hs
    · exact iff_of_true rfl (by omega)
    · exact iff_of_false (by decide) (by omega)
    all_goals
      exfalso
      rcases lt_or_le 3 (voxelHeight x z) with h | h
      · exact hg ⟨rfl, h⟩
      · exact hs ⟨rfl, h⟩

/-! ## Structure of the emitted voxel list -/

lemma mem_ite_nil {α : Type _} {c : Prop} [Decidable c] {l : List α} {v : α} :
    v ∈ (if c then l else []) ↔ c ∧ v ∈ l := by
  split_ifs with h
  · simp [h]
  · simp [h]

lemma mem_yVoxels_iff {rng : Rng} {x z : ℕ} {vh y : ℤ} {v : Voxel} :
    v ∈ yVoxels rng x z vh y ↔
      (treeCond rng x z vh y ∧ v ∈ treeVoxels rng x z y) ∨
      v = ⟨(x : ℤ) - 25, y, (z : ℤ) - 25, fillColor y vh⟩ := by
  unfold yVoxels treePart
  rw [List.mem_append, mem_ite_nil, List.mem_singleton]

lemma mem_columnVoxels_iff {rng : Rng} {x z : ℕ} {vh : ℤ} {v : Voxel} :
    v ∈ columnVoxels rng x z vh ↔
      ∃ y : ℕ, (y : ℤ) ≤ vh ∧ v ∈ yVoxels rng x z vh (y : ℤ) := by
  unfold columnVoxels
  constructor
  · intro h
    obtain ⟨l, hl, hv⟩ := List.mem_flatten.mp h
    obtain ⟨y, hy, rfl⟩ := List.mem_map.mp hl
    rw [List.mem_range] at hy
    exact ⟨y, by omega, hv⟩
  · rintro ⟨y, hy, hv⟩
    exact List.mem_flatten.mpr
      ⟨_, List.mem_map.mpr ⟨y, List.mem_range.mpr (by omega), rfl⟩, hv⟩

lemma mem_voxelData_iff {rng : Rng} {v : Voxel} :
    v ∈ voxelData rng ↔
      ∃ x z : ℕ, x < size ∧ z < size ∧ distFromCenter x z < maxDist ∧
        v ∈ columnVoxels rng x z (voxelHeight x z) := by
  unfold voxelData
  constructor
  · intro h
    obtain ⟨lx, hlx, hvx⟩ := List.mem_flatten.mp h
    obtain ⟨x, hx, rfl⟩ := List.mem_map.mp hlx
    obtain ⟨lz, hlz, hvz⟩ := List.mem_flatten.mp hvx
    obtain ⟨z, hz, rfl⟩ := List.mem_map.mp hlz
    rw [List.mem_range] at hx hz
    rw [mem_ite_nil] at hvz
    exact ⟨x, z, hx, hz, hvz.1, hvz.2⟩
  · rintro ⟨x, z, hx, hz, hin, hv⟩
    refine List.mem_flatten.mpr
      ⟨_, List.mem_map.mpr ⟨x, List.mem_range.mpr hx, rfl⟩, ?_⟩
    refine List.mem_flatten.mpr
      ⟨_, List.mem_map.mpr ⟨z, List.mem_range.mpr hz, rfl⟩, ?_⟩
    rw [mem_ite_nil]
    exact ⟨hin, hv⟩

/-- Any voxel of a tree anchored at `(x, z)` with top elevation `t` sits
at most one cell away in `x`/`z` and between `t + 1` and `t + 4` in
elevation. -/
lemma mem_treeVoxels_shape {rng : Rng} {x z : ℕ} {t : ℤ} {v : Voxel}
    (hv : v ∈ treeVoxels rng x z t) :
    (∃ dx dz : ℤ, dx ^ 2 ≤ 1 ∧ dz ^ 2 ≤ 1 ∧
      v.px = (x : ℤ) - 25 + dx ∧ v.pz = (z : ℤ) - 25 + dz) ∧
    t + 1 ≤ v.py ∧ v.py ≤ t + 4 := by
  unfold treeVoxels at hv
  simp only [List.mem_append, List.mem_cons, List.mem_flatMap,
    List.not_mem_nil, or_false] at hv
  rcases hv with (rfl | rfl) | ⟨dx, hdx, dz, hdz, dy, hdy, hvif⟩
  · exact ⟨⟨0, 0, by norm_num, by norm_num, by norm_num, by norm_num⟩,
      by norm_num, by norm_num⟩
  · exact ⟨⟨0, 0, by norm_num, by norm_num, by norm_num, by norm_num⟩,
      by norm_num, by norm_num⟩
  · rw [mem_ite_nil] at hvif
    obtain ⟨-, hveq⟩ := hvif
    rw [List.mem_singleton] at hveq
    subst hveq
    refine ⟨⟨dx, dz, ?_, ?_, rfl, rfl⟩, ?_, ?_⟩
    · rcases hdx with h | h | h <;> simp_all
    · rcases hdz with h | h | h <;> simp_all
    · rcases hdy with h | h <;> simp_all
    · rcases hdy with h | h <;> simp_all
      omega

lemma fillColor_zero {vh : ℤ} (h1 : 1 ≤ vh) : fillColor 0 vh = bedrockColor := by
  unfold fillColor
  rw [if_neg (by rintro ⟨h, -⟩; omega), if_neg (by rintro ⟨h, -⟩; omega), if_pos rfl]

/-- Every column emits its fill voxel at each elevation `0 ≤ y ≤ vh`. -/
lemma fill_mem_columnVoxels (rng : Rng) (x z : ℕ) {vh y : ℤ}
    (h0 : 0 ≤ y) (hy : y ≤ vh) :
    (⟨(x : ℤ) - 25, y, (z : ℤ) - 25, fillColor y vh⟩ : Voxel) ∈
      columnVoxels rng x z vh := by
  rw [mem_columnVoxels_iff]
  refine ⟨y.toNat, by omega, ?_⟩
  rw [Int.toNat_of_nonneg h0, mem_yVoxels_iff]
  right
  rfl

/-- Every voxel of a column sits on the column's own cell, except tree
voxels (which require `vh > 5`) that may spill one cell over. -/
lemma mem_columnVoxels_pos {rng : Rng} {x z : ℕ} {vh : ℤ} {v : Voxel}
    (hv : v ∈ columnVoxels rng x z vh) :
    (v.px = (x : ℤ) - 25 ∧ v.pz = (z : ℤ) - 25) ∨
    (5 < vh ∧ ∃ dx dz : ℤ, dx ^ 2 ≤ 1 ∧ dz ^ 2 ≤ 1 ∧
      v.px = (x : ℤ) - 25 + dx ∧ v.pz = (z : ℤ) - 25 + dz) := by
  rw [mem_columnVoxels_iff] at hv
  obtain ⟨y, hy, hv⟩ := hv
  rw [mem_yVoxels_iff] at hv
  rcases hv with ⟨⟨hyeq, h5, -⟩, htree⟩ | rfl
  · right
    obtain ⟨hpos, -⟩ := mem_treeVoxels_shape htree
    exact ⟨by omega, hpos⟩
  · left
    exact ⟨rfl, rfl⟩

/-- Every voxel of a column stays below `vh + 4`, and a voxel at
elevation `0` is a fill voxel, hence bedrock (given `vh ≥ 1`). -/
lemma mem_columnVoxels_py {rng : Rng} {x z : ℕ} {vh : ℤ} {v : Voxel}
    (h1 : 1 ≤ vh) (hv : v ∈ columnVoxels rng x z vh) :
    v.py ≤ vh + 4 ∧ (v.py = 0 → v.color = bedrockColor) := by
  rw [mem_columnVoxels_iff] at hv
  obtain ⟨y, hy, hv⟩ := hv
  rw [mem_yVoxels_iff] at hv
  rcases hv with ⟨⟨hyeq, h5, -⟩, htree⟩ | rfl
  · obtain ⟨-, hlo, hhi⟩ := mem_treeVoxels_shape htree
    exact ⟨by omega, fun h0 => absurd h0 (by omega)⟩
  · refine ⟨by dsimp only; omega, ?_⟩
    dsimp only
    intro h0
    have hy0 : y = 0 := by omega
    subst hy0
    rw [show ((0 : ℕ) : ℤ) = 0 from rfl]
    exact fillColor_zero h1

/-! ## C4: column inclusion is exactly the circular coastline -/

/-- C4 (confirmed): for every grid cell and every draw assignment, some
voxel occupies that cell's `x`/`z` column exactly when the cell's
distance from the island center is strictly below `maxDist` — included
cells always emit (at least bedrock), and no voxel, not even a leaf
spilling from a neighboring tree, occupies an excluded column. -/
theorem C4_column_inclusion_iff (rng : Rng) (x z : ℕ) :
    (∃ v, v ∈ voxelData rng ∧ v.px = (x : ℤ) - 25 ∧ v.pz = (z : ℤ) - 25) ↔
      distFromCenter x z < maxDist := by
  constructor
  · rintro ⟨v, hv, hpx, hpz⟩
    rw [mem_voxelData_iff] at hv
    obtain ⟨x0, z0, hx0, hz0, hin, hcol⟩ := hv
    rcases mem_columnVoxels_pos hcol with ⟨hpx0, hpz0⟩ | ⟨h5, dx, dz, hdx, hdz, hpx0, hpz0⟩
    · rw [dist_lt_iff] at hin ⊢
      have ex : (x : ℤ) - 25 = (x0 : ℤ) - 25 := by rw [← hpx, hpx0]
      have ez : (z : ℤ) - 25 = (z0 : ℤ) - 25 := by rw [← hpz, hpz0]
      unfold sqDist at hin ⊢
      rw [ex, ez]
      exact hin
    · have h168 := sqDist_le_of_tall x0 z0 h5 hin
      rw [dist_lt_iff]
      have ex : (x : ℤ) - 25 = ((x0 : ℤ) - 25) + dx := by rw [← hpx, hpx0]
      have ez : (z : ℤ) - 25 = ((z0 : ℤ) - 25) + dz := by rw [← hpz, hpz0]
      unfold sqDist at h168 ⊢
      rw [ex, ez]
      nlinarith [sq_nonneg (((x0 : ℤ) - 25) - dx), sq_nonneg (((z0 : ℤ) - 25) - dz)]
  · intro hin
    have h400 : sqDist x z < 400 := (dist_lt_iff x z).mp hin
    have hx : x < size := by
      have h2 : ((x : ℤ) - 25) ^ 2 < 400 := by
        unfold sqDist at h400
        nlinarith [sq_nonneg ((z : ℤ) - 25)]
      have h3 : (x : ℤ) < 50 := by nlinarith
      unfold size
      exact_mod_cast h3
    have hz : z < size := by
      have h2 : ((z : ℤ) - 25) ^ 2 < 400 := by
        unfold sqDist at h400
        nlinarith [sq_nonneg ((x : ℤ) - 25)]
      have h3 : (z : ℤ) < 50 := by nlinarith
      unfold size
      exact_mod_cast h3
    refine ⟨⟨(x : ℤ) - 25, 0, (z : ℤ) - 25, fillColor 0 (voxelHeight x z)⟩, ?_, rfl, rfl⟩
    rw [mem_voxelData_iff]
    exact ⟨x, z, hx, hz, hin,
      fill_mem_columnVoxels rng x z le_rfl
        (le_trans zero_le_one (one_le_voxelHeight x z))⟩

/-! ## C6: global voxel invariants -/

/-- C6 (confirmed): for every draw assignment, every generated voxel at
elevation `0` is bedrock-colored, and every generated voxel belongs to
some included column and sits no higher than that column's
`voxelHeight + 4` (two trunk levels plus two leaf levels). -/
theorem C6_voxel_invariants (rng : Rng) :
    (voxelData rng).Forall fun v =>
      (v.py = 0 → v.color = bedrockColor) ∧
      ∃ x z : ℕ, distFromCenter x z < maxDist ∧
        v ∈ columnVoxels rng x z (voxelHeight x z) ∧
        v.py ≤ voxelHeight x z + 4 := by
  rw [List.forall_iff_forall_mem]
  intro v hv
  rw [mem_voxelData_iff] at hv
  obtain ⟨x, z, hx, hz, hin, hcol⟩ := hv
  obtain ⟨hple, hbed⟩ := mem_columnVoxels_py (one_le_voxelHeight x z) hcol
  exact ⟨hbed, x, z, hin, hcol, hple⟩

/-! ## C8: end-to-end extent for the fixed size 50 -/

lemma sqrt_sq_add_sq_lt_20 {a b : ℤ} (h : a ^ 2 + b ^ 2 < 400) :
    Real.sqrt ((a : ℝ) ^ 2 + (b : ℝ) ^ 2) < 20 := by
  rw [Real.sqrt_lt' (by norm_num : (0 : ℝ) < 20)]
  have h' : ((a ^ 2 + b ^ 2 : ℤ) : ℝ) < 400 := by exact_mod_cast h
  push_cast at h'
  norm_num
  linarith

/-- C8 (confirmed): whatever the random draws, the generated sequence is
non-empty, every voxel (fills and tree voxels alike) lies strictly within
radial distance 20 of the island center in the x-z plane, and a
bedrock voxel is present (the center column is always included). -/
theorem C8_island_extent_size50 (rng : Rng) :
    voxelData rng ≠ [] ∧
    ((voxelData rng).Forall fun v =>
      Real.sqrt ((v.px : ℝ) ^ 2 + (v.pz : ℝ) ^ 2) < 20) ∧
    ∃ v, v ∈ voxelData rng ∧ v.color = bedrockColor := by
  have hin25 : distFromCenter 25 25 < maxDist := by
    rw [dist_lt_iff]
    unfold sqDist
    norm_num
  have hmem : (⟨((25 : ℕ) : ℤ) - 25, 0, ((25 : ℕ) : ℤ) - 25,
      fillColor 0 (voxelHeight 25 25)⟩ : Voxel) ∈ voxelData rng := by
    rw [mem_voxelData_iff]
    exact ⟨25, 25, by norm_num [size], by norm_num [size], hin25,
      fill_mem_columnVoxels rng 25 25 le_rfl
        (le_trans zero_le_one (one_le_voxelHeight 25 25))⟩
  refine ⟨List.ne_nil_of_mem hmem, ?_, ⟨_, hmem, fillColor_zero (one_le_voxelHeight 25 25)⟩⟩
  rw [List.forall_iff_forall_mem]
  intro v hv
  rw [mem_voxelData_iff] at hv
  obtain ⟨x, z, hx, hz, hin, hcol⟩ := hv
  rcases mem_columnVoxels_pos hcol with ⟨hpx, hpz⟩ | ⟨h5, dx, dz, hdx, hdz, hpx, hpz⟩
  · rw [hpx, hpz]
    apply sqrt_sq_add_sq_lt_20
    have h400 := (dist_lt_iff x z).mp hin
    unfold sqDist at h400
    exact h400
  · have h168 := sqDist_le_of_tall x z h5 hin
    rw [hpx, hpz]
    apply sqrt_sq_add_sq_lt_20
    unfold sqDist at h168
    nlinarith [sq_nonneg (((x : ℤ) - 25) - dx), sq_nonneg (((z : ℤ) - 25) - dz)]

/-! ## C9: where tree voxels sit in the emission order -/

lemma flatten_map_singleton {α β : Type _} (l : List α) (f : α → β) :
    (l.map fun a => [f a]).flatten = l.map f := by
  induction l with
  | nil => rfl
  | cons a t ih => simp [ih]

/-- C9 (corrected): one included column's emission is its fill voxels for
elevations `0 … vh-1`, then — when the tree test fires — the whole tree,
then the top fill voxel.  Tree voxels therefore come after the column's
lower fill voxels and immediately before its topmost fill voxel, not
before all of the column's fill voxels as claimed. -/
theorem C9_tree_between_fills (rng : Rng) (x z : ℕ) :
    columnVoxels rng x z (voxelHeight x z) =
      ((List.range (voxelHeight x z).toNat).map fun (y : ℕ) =>
        (⟨(x : ℤ) - 25, (y : ℤ), (z : ℤ) - 25,
          fillColor (y : ℤ) (voxelHeight x z)⟩ : Voxel)) ++
      treePart rng x z (voxelHeight x z) (voxelHeight x z) ++
      [⟨(x : ℤ) - 25, voxelHeight x z, (z : ℤ) - 25,
        fillColor (voxelHeight x z) (voxelHeight x z)⟩] := by
  have h1 : 1 ≤ voxelHeight x z := one_le_voxelHeight x z
  set vh := voxelHeight x z with hvh
  unfold columnVoxels
  have h2 : (vh + 1).toNat = vh.toNat + 1 := by omega
  rw [h2, List.range_succ, List.map_append, List.flatten_append, List.append_assoc]
  congr 1
  · have hcong : ((List.range vh.toNat).map fun (y : ℕ) => yVoxels rng x z vh (y : ℤ)) =
        (List.range vh.toNat).map fun (y : ℕ) =>
          [(⟨(x : ℤ) - 25, (y : ℤ), (z : ℤ) - 25, fillColor (y : ℤ) vh⟩ : Voxel)] := by
      apply List.map_congr_left
      intro y hy
      rw [List.mem_range] at hy
      unfold yVoxels treePart
      rw [if_neg, List.nil_append]
      rintro ⟨he, -⟩
      omega
    rw [hcong, flatten_map_singleton]
  · simp only [List.map_cons, List.map_nil, List.flatten_cons, List.flatten_nil,
      List.append_nil]
    have hcast : ((vh.toNat : ℤ)) = vh := by omega
    unfold yVoxels
    rw [hcast]

/-- The constant-zero draw assignment: every tree test (`0 < 0.02`) and
every leaf test (`0 < 0.7`) succeeds. -/
def rng0 : Rng := ⟨fun _ _ => 0, fun _ _ _ _ _ => 0⟩

/-- C9's counterexample: at the included center column with a column
height of 6 and all-zero draws, the tree test fires, yet the very first
emitted voxel of the column is the bedrock fill voxel at elevation 0 —
so the tree's voxels (the trunk voxel at elevation 7 is one of them) do
not all precede the column's fill voxels. -/
theorem C9_counterexample :
    treeCond rng0 25 25 6 6 ∧
    (columnVoxels rng0 25 25 6).head? = some ⟨0, 0, 0, bedrockColor⟩ ∧
    (⟨0, 7, 0, trunkColor⟩ : Voxel) ∈ columnVoxels rng0 25 25 6 := by
  have hc : treeCond rng0 25 25 6 6 := ⟨rfl, by norm_num, by norm_num [rng0]⟩
  refine ⟨hc, by decide, ?_⟩
  rw [mem_columnVoxels_iff]
  refine ⟨6, by norm_num, ?_⟩
  rw [mem_yVoxels_iff]
  left
  refine ⟨hc, ?_⟩
  unfold treeVoxels
  apply List.mem_append_left
  have he : (⟨0, 7, 0, trunkColor⟩ : Voxel) =
      ⟨((25 : ℕ) : ℤ) - 25, 6 + 1, ((25 : ℕ) : ℤ) - 25, trunkColor⟩ := by
    norm_num
  rw [he]
  exact List.mem_cons_self _ _

/-! ## C5: tree placement and tree shape -/

lemma flatMap_ite_singleton {α β : Type _} (l : List α) (p : α → Prop)
    [DecidablePred p] (g : α → β) :
    (l.flatMap fun a => if p a then [g a] else []) =
      (l.filter fun a => p a).map g := by
  induction l with
  | nil => rfl
  | cons a t ih =>
    rw [List.flatMap_cons, List.filter_cons]
    by_cases h : p a
    · simp [h, ih]
    · simp [h, ih]

lemma filter_map_flatMap {α β γ : Type _} (l : List α) (f : α → List β)
    (p : β → Bool) (g : β → γ) :
    ((l.flatMap f).filter p).map g =
      l.flatMap fun a => ((f a).filter p).map g := by
  induction l with
  | nil => rfl
  | cons a t ih =>
    rw [List.flatMap_cons, List.filter_append, List.map_append, ih, List.flatMap_cons]

/-- The code's tree emission produces exactly the claim's tree shape:
two trunks, then the canopy cells that pass their draw, in loop order. -/
lemma treeVoxels_eq_claim (rng : Rng) (x z : ℕ) (t : ℤ) :
    treeVoxels rng x z t = claimTreeVoxels rng x z t := by
  unfold treeVoxels claimTreeVoxels canopyCells
  congr 1
  simp only [filter_map_flatMap, List.filter_map, List.map_map]
  simp only [flatMap_ite_singleton, Function.comp_def]

/-- C5 (confirmed): a tree is emitted at a column exactly when the top
surface is grass, the top elevation exceeds 5 and the column's draw is
below 0.02 (in the code the guard tests `y === voxelHeight && y > 5`,
and `y > 5` already forces the grass top), and an emitted tree is
exactly the claimed shape: two trunks at `top+1`, `top+2`, then the
3×3×2 canopy cells whose independent draws are below 0.7. -/
theorem C5_tree_placement_and_shape (rng : Rng) (x z : ℕ) (y : ℤ) :
    (treePart rng x z (voxelHeight x z) y ≠ [] ↔
      fillColor (voxelHeight x z) (voxelHeight x z) = grassColor ∧
      5 < voxelHeight x z ∧ y = voxelHeight x z ∧ rng.treeRoll x z < 0.02) ∧
    treeVoxels rng x z y = claimTreeVoxels rng x z y := by
  refine ⟨?_, treeVoxels_eq_claim rng x z y⟩
  unfold treePart
  split_ifs with hc
  · obtain ⟨hy, h5, hroll⟩ := hc
    constructor
    · intro _
      refine ⟨?_, by omega, hy, hroll⟩
      unfold fillColor
      rw [if_pos ⟨rfl, by omega⟩]
    · intro _
      unfold treeVoxels
      simp
  · constructor
    · intro h
      exact absurd rfl h
    · rintro ⟨-, h5, hy, hroll⟩
      exact absurd ⟨hy, by omega, hroll⟩ hc

/-! ## C2, C7, C10: per-frame movement and the ground clamp -/

lemma Vec3.ext' {a b : Vec3} (hx : a.x = b.x) (hy : a.y = b.y)
    (hz : a.z = b.z) : a = b := by
  cases a
  cases b
  simp_all

lemma frameUpdate_def (k : Keys) (f up : Vec3) (delta : ℝ) (pos : Vec3) :
    frameUpdate k f up delta pos =
      if (pos.add (frameVelocity k f up delta)).y < 2 then
        ⟨(pos.add (frameVelocity k f up delta)).x, 2,
         (pos.add (frameVelocity k f up delta)).z⟩
      else pos.add (frameVelocity k f up delta) := rfl

lemma frameVelocity_onlyForward (f up : Vec3) (delta : ℝ) :
    frameVelocity onlyForward f up delta = f.smul (10 * delta) := by
  unfold frameVelocity onlyForward
  apply Vec3.ext' <;> simp [Vec3.add, Vec3.smul]

/-- With only the forward key held, no clamp ever fires (given a
non-descending look direction and a start at or above the floor), and
the position integrates linearly. -/
lemma posAfter_forward (f up : Vec3) (delta : ℝ) (p : Vec3)
    (hd : 0 ≤ delta) (hfy : 0 ≤ f.y) (hp : 2 ≤ p.y) (n : ℕ) :
    posAfter onlyForward f up delta p n =
      ⟨p.x + n * (10 * delta) * f.x,
       p.y + n * (10 * delta) * f.y,
       p.z + n * (10 * delta) * f.z⟩ := by
  induction n with
  | zero =>
    show p = _
    apply Vec3.ext' <;> simp
  | succ n ih =>
    show frameUpdate onlyForward f up delta (posAfter onlyForward f up delta p n) = _
    rw [ih, frameUpdate_def, frameVelocity_onlyForward]
    have h1 : 0 ≤ (n : ℝ) * (10 * delta) * f.y := by positivity
    have h2 : 0 ≤ f.y * (10 * delta) := by positivity
    split_ifs with h
    · exfalso
      simp only [Vec3.add, Vec3.smul] at h
      linarith
    · apply Vec3.ext' <;> simp [Vec3.add, Vec3.smul] <;> ring

/-- C2 (corrected): the velocity is the claimed sum of per-key
contributions only when no two opposing keys are held together — the
source reuses one `forward`/`right` vector and `multiplyScalar` mutates
it in place, so e.g. forward+back does not cancel.  The claim's
`n`-frame forward-displacement consequence does hold: with only the
forward key held, a non-descending unit look direction and a start at or
above the floor, the displacement projected on the look direction is
exactly `speed * delta * n`. -/
theorem C2_velocity_and_forward_displacement
    (k : Keys) (f up : Vec3) (delta : ℝ) (p : Vec3) (n : ℕ) :
    (¬(k.keyw = true ∧ k.keys = true) → ¬(k.keya = true ∧ k.keyd = true) →
      frameVelocity k f up delta = claimVelocity k f up delta) ∧
    (0 ≤ delta → 0 ≤ f.y → 2 ≤ p.y → f.x ^ 2 + f.y ^ 2 + f.z ^ 2 = 1 →
      ((posAfter onlyForward f up delta p n).sub p).dot f = 10 * delta * n) := by
  constructor
  · intro hws had
    obtain ⟨kw, ka, ks, kd, sp⟩ := k
    apply Vec3.ext' <;>
      cases kw <;> cases ks <;> cases ka <;> cases kd <;> cases sp <;>
        simp_all [frameVelocity, claimVelocity, Vec3.add, Vec3.smul]
  · intro hd hfy hp hunit
    rw [posAfter_forward f up delta p hd hfy hp n]
    unfold Vec3.sub Vec3.dot
    simp only
    linear_combination (10 * delta * (n : ℝ)) * hunit

/-- C2's counterexample: holding forward and back together with look
direction `(1, 0, 0)`, up `(0, 1, 0)` and `delta = 1`, the code's frame
velocity is `(10 - 100, 0, 0) = (-90, 0, 0)` (the back test rescales the
already-scaled forward vector), while the claimed sum is zero. -/
theorem C2_counterexample :
    frameVelocity ⟨true, false, true, false, false⟩ ⟨1, 0, 0⟩ ⟨0, 1, 0⟩ 1 ≠
      claimVelocity ⟨true, false, true, false, false⟩ ⟨1, 0, 0⟩ ⟨0, 1, 0⟩ 1 := by
  intro h
  have hx := congrArg Vec3.x h
  simp [frameVelocity, claimVelocity, Vec3.add, Vec3.smul] at hx
  norm_num at hx

/-- C7 (confirmed): after every frame update the camera's vertical
position is at least 2, and whenever the unclamped result would drop
below 2 the stored vertical position is exactly 2. -/
theorem C7_floor_clamp (k : Keys) (f up : Vec3) (delta : ℝ) (p : Vec3) :
    2 ≤ (frameUpdate k f up delta p).y ∧
    ((p.add (frameVelocity k f up delta)).y < 2 →
      (frameUpdate k f up delta p).y = 2) := by
  rw [frameUpdate_def]
  split_ifs with h
  · exact ⟨le_refl 2, fun _ => rfl⟩
  · exact ⟨not_lt.mp h, fun h2 => absurd h2 h⟩

lemma frameVelocity_noKeys (f up : Vec3) (delta : ℝ) :
    frameVelocity noKeys f up delta = ⟨0, 0, 0⟩ := rfl

/-- C10 (confirmed): with no movement key held a frame leaves `x` and
`z` unchanged; `y` is kept when it is at least 2 and snapped up to
exactly 2 when it started below 2. -/
theorem C10_idle_frame (f up : Vec3) (delta : ℝ) (p : Vec3) :
    (frameUpdate noKeys f up delta p).x = p.x ∧
    (frameUpdate noKeys f up delta p).z = p.z ∧
    (2 ≤ p.y → (frameUpdate noKeys f up delta p).y = p.y) ∧
    (p.y < 2 → (frameUpdate noKeys f up delta p).y = 2) := by
  rw [frameUpdate_def, frameVelocity_noKeys]
  have hadd : p.add ⟨0, 0, 0⟩ = p := by
    apply Vec3.ext' <;> simp [Vec3.add]
  rw [hadd]
  split_ifs with h
  · exact ⟨rfl, rfl, fun h2 => absurd h (not_lt.mpr h2), fun _ => rfl⟩
  · exact ⟨rfl, rfl, fun _ => rfl, fun h2 => absurd h2 h⟩
